import Mathlib

/-!
Verification of the `vnbase::run_loop` message-loop runtime against its
specification.  The Rust sources (`core.rs`, `timer.rs`, `schedule.rs`,
`object.rs`, `mod.rs`) are shallowly embedded: `Instant`s and `Duration`s are
`Nat`s, interior-mutable cells become explicit state, `Rc` identities become
`Nat` ids, and operations that can panic or hit undefined behaviour return
`Option`.
-/

/-- The two `Cell`s embedded in a timed action (`TimedActionNode` in
`core.rs`): the absolute deadline `time` and the action's current position
`index` in the heap's vector, maintained by the heap. -/
structure TANode where
  time : Nat
  index : Nat
deriving Repr, DecidableEq

/-- `TimedActionBinaryHeap` from `core.rs`.  `data` is the vector of actions,
modelled as the list of action identities (the `Rc` pointer identities);
`store` maps each identity to its `TimedActionNode` cells.  The cells belong
to the action, so `store` keeps an entry even for actions that are not
currently in `data`. -/
structure Heap where
  store : List TANode
  data : List Nat
deriving Repr, DecidableEq

/-- Read an action's node cells. -/
def Heap.nodeOf (h : Heap) (id : Nat) : TANode :=
  h.store.getD id ⟨0, 0⟩

/-- The action identity stored in slot `i` of the vector. -/
def Heap.idAt (h : Heap) (i : Nat) : Nat :=
  h.data.getD i 0

/-- The deadline of the action in slot `i`. -/
def Heap.timeAt (h : Heap) (i : Nat) : Nat :=
  (h.nodeOf (h.idAt i)).time

/-- Write an action's `time` cell. -/
def Heap.setTime (h : Heap) (id t : Nat) : Heap :=
  { h with store := h.store.set id { h.nodeOf id with time := t } }

/-- Write an action's `index` cell. -/
def Heap.setIndex (h : Heap) (id i : Nat) : Heap :=
  { h with store := h.store.set id { h.nodeOf id with index := i } }

/-- `TimedActionBinaryHeap::swap`: exchange the vector slots `a` and `b` and
write both actions' `index` cells with their new positions. -/
def Heap.swapAt (h : Heap) (a b : Nat) : Heap :=
  let ida := h.idAt a
  let idb := h.idAt b
  let h' := { h with data := (h.data.set a idb).set b ida }
  (h'.setIndex idb a).setIndex ida b

/-- The loop body of `sift_up`, with explicit fuel: while the slot is not the
root and its deadline is strictly earlier than its parent's
(`(index - 1) / 2`), swap with the parent.  Returns the heap and the final
index. -/
def Heap.siftUpFuel : Nat → Heap → Nat → Heap × Nat
  | 0, h, index => (h, index)
  | fuel + 1, h, index =>
    if index = 0 then (h, index)
    else
      let parent := (index - 1) / 2
      if h.timeAt parent ≤ h.timeAt index then (h, index)
      else Heap.siftUpFuel fuel (h.swapAt index parent) parent

/-- `TimedActionBinaryHeap::sift_up`.  Fuel `index + 1` suffices because the
index strictly decreases on every iteration. -/
def Heap.siftUp (h : Heap) (index : Nat) : Heap × Nat :=
  Heap.siftUpFuel (index + 1) h index

/-- The loop body of `sift_down`, with explicit fuel: pick the child with the
smaller deadline (ties to the left child), stop when the current slot's
deadline is strictly earlier than that child's, otherwise swap and continue. -/
def Heap.siftDownFuel : Nat → Heap → Nat → Heap × Nat
  | 0, h, index => (h, index)
  | fuel + 1, h, index =>
    let stop := h.data.length
    let child := index * 2 + 1
    if stop ≤ child then (h, index)
    else
      let right := child + 1
      let child' := if right < stop ∧ h.timeAt right < h.timeAt child then right else child
      if h.timeAt index < h.timeAt child' then (h, index)
      else Heap.siftDownFuel fuel (h.swapAt index child') child'

/-- `TimedActionBinaryHeap::sift_down`.  Fuel `data.length + 1` suffices: the
index strictly increases while it stays below the length. -/
def Heap.siftDown (h : Heap) (index : Nat) : Heap × Nat :=
  Heap.siftDownFuel (h.data.length + 1) h index

/-- `TimedActionBinaryHeap::push`: set the action's `time` cell and its
`index` cell to the tail position, append the action to the vector, sift up. -/
def Heap.push (h : Heap) (id t : Nat) : Heap :=
  let index := h.data.length
  let h' := (h.setTime id t).setIndex id index
  let h'' := { h' with data := h'.data ++ [id] }
  (h''.siftUp index).1

/-- `TimedActionBinaryHeap::adjust`: write the new deadline into the node's
`time` cell, sift up from the node's recorded index, and if the position did
not change, sift down from it. -/
def Heap.adjust (h : Heap) (id t : Nat) : Heap :=
  let h' := h.setTime id t
  let index := (h'.nodeOf id).index
  let up := h'.siftUp index
  if up.2 = index then (up.1.siftDown index).1 else up.1

/-- `TimedActionBinaryHeap::remove`: read the node's recorded index; if it is
the tail, pop; otherwise swap with the tail, pop, and sift down at the vacated
index.  `none` models the source's failure cases: `self.data.len() - 1`
underflows when the vector is empty, and a stale index past the tail makes
`get_unchecked` read out of bounds. -/
def Heap.remove (h : Heap) (id : Nat) : Option Heap :=
  let index := (h.nodeOf id).index
  if h.data.length = 0 then none
  else
    let last := h.data.length - 1
    if index = last then some { h with data := h.data.dropLast }
    else if last < index then none
    else
      let hs := h.swapAt index last
      let hp := { hs with data := hs.data.dropLast }
      some (hp.siftDown index).1

/-- `TimedActionBinaryHeap::peek`: the root action's identity if its deadline
has passed. -/
def Heap.peek (h : Heap) (now : Nat) : Option Nat :=
  match h.data with
  | [] => none
  | id :: _ => if (h.nodeOf id).time ≤ now then some id else none

/-- The heap-order half of the TH invariant: every non-root slot's deadline is
at least its parent's. -/
def Heap.heapOrder (h : Heap) : Bool :=
  (List.range h.data.length).all fun i =>
    decide (i = 0 ∨ h.timeAt ((i - 1) / 2) ≤ h.timeAt i)

/-- The index half of the TH invariant: the action in slot `i` records `i` in
its `index` cell. -/
def Heap.indexOk (h : Heap) : Bool :=
  (List.range h.data.length).all fun i => (h.nodeOf (h.idAt i)).index == i

/-- A heap reached from the empty heap by six pushes, of deadlines
1, 5, 2, 6, 7, 3 for the actions with identities 0..5.  No sift-up moves
anything, so the vector is `[0, 1, 2, 3, 4, 5]`. -/
def heapSix : Heap :=
  let h0 : Heap := { store := List.replicate 6 ⟨0, 0⟩, data := [] }
  (((((h0.push 0 1).push 1 5).push 2 2).push 3 6).push 4 7).push 5 3

/-- The `State` enum guarded by the message queue's mutex (`core.rs`). -/
inductive MQState
  | Stopped
  | Stopping
  | Running
  | Waiting
  | MsgArrived
deriving Repr, DecidableEq

/-- `MsgQueue` from `core.rs`: the singly linked chain of boxed closures with
its tail pointer is modelled as the list of messages in chain order (the
empty list standing for `list == None`), plus the state enum. -/
structure MsgQueue (μ : Type) where
  list : List μ
  state : MQState
deriving Repr, DecidableEq

/-- `MsgQueue::push`: append a fresh node at the tail (O(1) through the tail
pointer in the source; list append here). -/
def MsgQueue.push (q : MsgQueue μ) (m : μ) : MsgQueue μ :=
  { q with list := q.list ++ [m] }

/-- `MsgQueue::drain`: `take()` the whole chain, leaving the queue's list
empty; yields `none` when no chain was present. -/
def MsgQueue.drain (q : MsgQueue μ) : Option (List μ) × MsgQueue μ :=
  (if q.list.isEmpty then none else some q.list, { q with list := [] })

/-- Executing a drained chain (the loop of `process_msgs` in `mod.rs`): each
`ActionNode::process` runs its closure and hands back the `next` node, so the
execution order is the chain order.  The result lists the messages in the
order their closures run. -/
def runChain : List μ → List μ
  | [] => []
  | m :: rest => m :: runChain rest

/-- `Core::post`: take the lock, push at the tail unconditionally, and if the
state is `Waiting`, set `MsgArrived` and signal the condition variable.  No
state is inspected before enqueueing and nothing is reported back. -/
def Core.post (q : MsgQueue μ) (m : μ) : MsgQueue μ :=
  let q' := q.push m
  if q'.state = MQState.Waiting then { q' with state := MQState.MsgArrived } else q'

/-- `<RunLoop as Drop>::drop` (`mod.rs`): take the lock and `drain()`; the
returned chain is dropped at the end of the statement without any
`process` call.  The second component is the list of messages executed during
teardown. -/
def RunLoop.dropTeardown (q : MsgQueue μ) : MsgQueue μ × List μ :=
  ((q.drain).2, [])

/-- A sequence of `MsgQueue::push` calls, in order. -/
def pushAll (q : MsgQueue μ) (ms : List μ) : MsgQueue μ :=
  ms.foldl MsgQueue.push q

/-- The `Timer` state machine (`timer.rs`). -/
inductive TimerState
  | None
  | Active
  | Processing
  | Restart (t : Nat)
deriving Repr, DecidableEq

/-- The timer's `Inner` cell: the state plus whether a callback is installed
(`act.is_some()`). -/
structure TimerInner where
  state : TimerState
  act : Bool
deriving Repr, DecidableEq

/-- A timer together with the loop's heap; `tid` is the identity of the
timer's shared `TimedActionNode` in the heap model. -/
structure TimerSys where
  inner : TimerInner
  heap : Heap
  tid : Nat
deriving Repr, DecidableEq

/-- `Timer::is_active`: `Active` and `Restart` count as active. -/
def TimerSys.is_active (s : TimerSys) : Bool :=
  match s.inner.state with
  | .Active | .Restart _ => true
  | _ => false

/-- `Timer::start(time)` at instant `now`: in state `None`, push the action
with deadline `now + time`; in `Active`, adjust to `now + time`; in
`Processing` or `Restart`, record `Restart (now + time)`.  The source assigns
no new state in the `None` and `Active` arms. -/
def TimerSys.start (now time : Nat) (s : TimerSys) : TimerSys :=
  match s.inner.state with
  | .None => { s with heap := s.heap.push s.tid (now + time) }
  | .Active => { s with heap := s.heap.adjust s.tid (now + time) }
  | .Processing | .Restart _ =>
      { s with inner := { s.inner with state := .Restart (now + time) } }

/-- `Timer::cancel`: a no-op in `None` and `Processing`; in `Active`, remove
the action from the heap (the source assigns no new state in this arm); in
`Restart`, fall back to `Processing`.  A heap `remove` failure propagates as
`none`. -/
def TimerSys.cancel (s : TimerSys) : Option TimerSys :=
  match s.inner.state with
  | .None | .Processing => some s
  | .Active => (s.heap.remove s.tid).map fun h => { s with heap := h }
  | .Restart _ => some { s with inner := { s.inner with state := .Processing } }

/-- A freshly built timer (`Timer::new` has state `None`) with a callback
installed, next to an empty heap whose store holds the timer's node cells. -/
def timerFresh : TimerSys :=
  { inner := { state := .None, act := true },
    heap := { store := [⟨0, 0⟩], data := [] },
    tid := 0 }

/-- A timer in state `Active` (reached through a restart from inside its own
callback) whose action is the only element of the heap. -/
def timerArmed : TimerSys :=
  { inner := { state := .Active, act := true },
    heap := { store := [⟨50, 0⟩], data := [0] },
    tid := 0 }

/-- The `Schedule` state machine (`schedule.rs`). -/
inductive SchedState
  | None
  | Active
  | Processing
  | Cancelled
deriving Repr, DecidableEq

/-- The schedule's `Inner` cell: state, period, the instant of the previous
firing (`last`), the absolute deadline of the next firing (`target`), and
whether a callback is installed (`act.is_some()`). -/
structure SchedInner where
  state : SchedState
  period : Nat
  last : Nat
  target : Nat
  act : Bool
deriving Repr, DecidableEq

/-- The inner state handed to the schedule's callback by `process`: `last` and
`target` are already advanced, the callback box is taken out of `act`, and the
state is `Processing`. -/
def schedCbInput (now : Nat) (i : SchedInner) : SchedInner :=
  { i with last := now, target := i.target + i.period,
           act := false, state := SchedState.Processing }

/-- The inner state right after the callback returned, as `process` sees it:
the callback's aggregate effect `eff` applied to `schedCbInput`, with the
taken callback box put back if the callback did not install a new one. -/
def schedAfterCb (now : Nat) (eff : SchedInner → SchedInner) (i : SchedInner) :
    SchedInner :=
  let j := eff (schedCbInput now i)
  if j.act then j else { j with act := true }

/-- `<schedule::Data as TimedAction>::process` at instant `now`.  The user
callback may re-enter the schedule's API, so its aggregate effect on the inner
state is a parameter `eff`.  The result is `none` for the source's
`unreachable!()` arm; otherwise it carries the new inner state, the returned
`Option<Instant>`, and the `dt` passed to the callback (`none` when no
callback was installed).  `dt = now - last` is computed before `last` is
overwritten, and `target` is advanced by `period` before the callback runs. -/
def SchedInner.process (now : Nat) (eff : SchedInner → SchedInner)
    (i : SchedInner) : Option (SchedInner × Option Nat × Option Nat) :=
  let dur := now - i.last
  let i1 := { i with last := now, target := i.target + i.period }
  if i1.act then
    let i3 := schedAfterCb now eff i
    match i3.state with
    | .Processing => some ({ i3 with state := .Active }, some i3.target, some dur)
    | .Cancelled => some ({ i3 with state := .None }, none, some dur)
    | _ => none
  else
    some (i1, some i1.target, none)

/-- `MAX_REFCOUNT` from `object.rs`: `isize::MAX` on a 64-bit target. -/
def maxRefcount : Nat := 2 ^ 63 - 1

/-- The `ObjH<T>` control block (`object.rs`): a pointer to the object node
(`none` for null), and the `strong` and `weak` atomic counts. -/
structure ObjH where
  ptr : Option Nat
  strong : Nat
  weak : Nat
deriving Repr, DecidableEq

/-- An `ObjectNode<T>` (`object.rs`): the cross-link to its control block, the
intrusive `next`/`prev` pointers (node identities), and the user value. -/
structure ObjNode (α : Type) where
  handle : Nat
  next : Option Nat
  prev : Option Nat
  obj : α
deriving Repr, DecidableEq

/-- `ObjectList` (`object.rs`) together with the allocations it touches:
`nodes` and `handles` are the id-indexed allocation pools for object nodes and
control blocks, `head` is the intrusive list's head pointer. -/
structure ObjectList (α : Type) where
  nodes : List (ObjNode α)
  handles : List ObjH
  head : Option Nat
deriving Repr, DecidableEq

/-- The strong handle returned by `create`: a clone of the loop's MQ reference
(`core`, the identity of the loop's `Core`) and the control-block pointer. -/
structure ObjectHandle where
  core : Nat
  handle : Nat
deriving Repr, DecidableEq

/-- Set the `prev` pointer of the node allocated at `i`, if any. -/
def setPrevAt (nodes : List (ObjNode α)) (i : Nat) (p : Option Nat) :
    List (ObjNode α) :=
  match nodes.get? i with
  | some n => nodes.set i { n with prev := p }
  | none => nodes

/-- `ObjectList::create` on the engine thread whose `Core` identity is
`coreId`: allocate an `ObjectNode` with `next = head`, `prev = None`, allocate
an `ObjH` with `strong = 1, weak = 1`, cross-link the two, and — only when
`head` is `Some` — set the old head's `prev` to the new node and move `head`
to it; the source's `if let Some(ref mut head)` has no else branch.  Returns
the updated list and the strong handle carrying the cloned MQ reference. -/
def ObjectList.create (l : ObjectList α) (coreId : Nat) (v : α) :
    ObjectList α × ObjectHandle :=
  let nodeId := l.nodes.length
  let hId := l.handles.length
  let node : ObjNode α := { handle := hId, next := l.head, prev := none, obj := v }
  let nodes := l.nodes ++ [node]
  let handles := l.handles ++ [{ ptr := some nodeId, strong := 1, weak := 1 }]
  let l' : ObjectList α :=
    match l.head with
    | some oldHead =>
        { nodes := setPrevAt nodes oldHead (some nodeId),
          handles := handles, head := some nodeId }
    | none => { nodes := nodes, handles := handles, head := l.head }
  (l', { core := coreId, handle := hId })

/-- `ObjectWeak::new`: a fresh control block with a null node pointer,
`strong = 0` and `weak = 1`. -/
def ObjectWeak.newObjH : ObjH := { ptr := none, strong := 0, weak := 1 }

/-- The possible outcomes of `ObjectWeak::upgrade`. -/
inductive UpgradeResult
  | noObject
  | aborted
  | upgraded (h : ObjH)
deriving Repr, DecidableEq

/-- `ObjectWeak::upgrade`'s compare-exchange loop, single-threaded view:
observe `strong`; `0` yields `None`; a value above `MAX_REFCOUNT` aborts the
process; otherwise the compare-exchange installs `strong + 1` and a new
strong handle is produced. -/
def ObjH.upgrade (h : ObjH) : UpgradeResult :=
  if h.strong = 0 then .noObject
  else if maxRefcount < h.strong then .aborted
  else .upgraded { h with strong := h.strong + 1 }

/-- The operations reachable through weak handles alone. -/
inductive WeakOp
  | clone
  | drop
  | tryUpgrade
deriving Repr, DecidableEq

/-- Apply one weak-handle operation to the control block: `Clone` is
`ObjH::inc_weak` (abort once the old count exceeds `MAX_REFCOUNT`), `Drop` is
`ObjH::dec_weak` (the block is freed when the old count was 1), `tryUpgrade`
is `ObjectWeak::upgrade`.  `none` models abort or deallocation of the
block. -/
def applyWeakOp (h : ObjH) : WeakOp → Option ObjH
  | .clone => if maxRefcount < h.weak then none else some { h with weak := h.weak + 1 }
  | .drop => if h.weak = 1 then none else some { h with weak := h.weak - 1 }
  | .tryUpgrade =>
    match h.upgrade with
    | .noObject => some h
    | .aborted => none
    | .upgraded h2 => some h2

/-- Run a sequence of weak-handle operations on a control block. -/
def runWeakOps (h : ObjH) : List WeakOp → Option ObjH
  | [] => some h
  | op :: rest =>
    match applyWeakOp h op with
    | some h2 => runWeakOps h2 rest
    | none => none

/-- The outcome of one iteration of `ObjectHandle::downgrade`'s
compare-exchange loop. -/
inductive DowngradeStep
  | retry
  | abort
  | success (newWeak : Nat)
deriving Repr, DecidableEq

/-- One iteration of `ObjectHandle::downgrade`'s loop over the observed `weak`
count `n`: when `n == MAX_REFCOUNT` the loop reloads and `continue`s;
otherwise the compare-exchange installs `n + 1` and the weak handle is
returned.  No arm of the source aborts. -/
def downgradeStep (n : Nat) : DowngradeStep :=
  if n = maxRefcount then .retry else .success (n + 1)

/-- `ObjectHandle::downgrade` run for `fuel` loop iterations; in the
single-threaded view each reload observes the same count.  `none` means the
loop is still spinning after `fuel` iterations. -/
def downgradeLoop : Nat → Nat → Option DowngradeStep
  | 0, _ => none
  | fuel + 1, n =>
    match downgradeStep n with
    | .retry => downgradeLoop fuel n
    | r => some r

/-- An object registry with no objects yet (`ObjectList::new`). -/
def emptyObjects : ObjectList Nat := { nodes := [], handles := [], head := none }

/-- A chain is executed in chain order: `ActionNode::process` runs the head's
closure first and then hands over the rest. -/
theorem runChain_id (l : List μ) : runChain l = l := by
  induction l with
  | nil => rfl
  | cons m rest ih => simpa [runChain] using ih

/-- A chain that ends in two pushed nodes is not empty. -/
theorem isEmpty_append_cons (l : List μ) (a b : μ) :
    (l ++ [a, b]).isEmpty = false := by
  cases l <;> rfl

/-- `pushAll` appends the pushed messages at the tail in push order and leaves
the state unchanged. -/
theorem pushAll_eq (q : MsgQueue μ) (ms : List μ) :
    pushAll q ms = { list := q.list ++ ms, state := q.state } := by
  induction ms generalizing q with
  | nil => simp [pushAll]
  | cons m rest ih =>
    simpa [pushAll, MsgQueue.push, List.foldl_cons] using ih (q.push m)



/-- Claim C1: the TH invariant — `data[i].deadline >= data[(i-1)/2].deadline`
for every non-root `i` and `data[i].index == i` for every `i` — is claimed to
hold for every heap reachable by push/adjust/remove.  It does not: pushing
deadlines 1, 5, 2, 6, 7, 3 into the empty heap satisfies the invariant, but
removing the action at index 3 swaps the tail (deadline 3) into slot 3 and
only sifts down, leaving `data[3].deadline = 3` below its parent
`data[1].deadline = 5`; the index half still holds. -/
theorem c1_remove_breaks_heap_order :
    Heap.heapOrder heapSix = true ∧ Heap.indexOk heapSix = true ∧
    (Heap.remove heapSix 3).map Heap.heapOrder = some false ∧
    (Heap.remove heapSix 3).map Heap.indexOk = some true ∧
    (Heap.remove heapSix 3).map (fun h => (h.timeAt 1, h.timeAt 3))
      = some (5, 3) := by decide

/-- Claim C2: `Timer::start(dt)` on a timer in state `None` is claimed to push
the action with deadline `now + dt` and move the state to `Active`, making
`is_active()` true.  The push with the right deadline happens, but the source
assigns no state in that arm: the state stays `None` and `is_active()` returns
false (evaluated at `now = 100`, `dt = 5`). -/
theorem c2_start_from_none_stays_none :
    (timerFresh.start 100 5).heap.data = [0] ∧
    ((timerFresh.start 100 5).heap.nodeOf 0).time = 105 ∧
    ((timerFresh.start 100 5).heap.nodeOf 0).index = 0 ∧
    (timerFresh.start 100 5).inner.state = TimerState.None ∧
    (timerFresh.start 100 5).is_active = false := by decide

/-- Claim C3: `ObjectList::create(v)` is claimed to link the new node in at
the head of the intrusive list for every list state.  On the empty list it
does not: the source updates `head` only inside `if let Some(ref mut head)`,
so `head` stays `None` and the allocated node is unreachable from the list —
and a second `create` leaves it `None` again.  The rest of the claim holds:
the control block is allocated with `strong = 1, weak = 1`, node and block are
cross-linked (`node.handle = 0`, `block.ptr = some 0`), and the returned
strong handle carries the loop's MQ reference (`core = 7`). -/
theorem c3_create_does_not_link_head :
    (emptyObjects.create 7 42).2 = { core := 7, handle := 0 } ∧
    (emptyObjects.create 7 42).1.handles
      = [{ ptr := some 0, strong := 1, weak := 1 }] ∧
    ((emptyObjects.create 7 42).1.nodes.map fun n => (n.handle, n.next, n.prev, n.obj))
      = [(0, none, none, 42)] ∧
    (emptyObjects.create 7 42).1.head = none ∧
    ((emptyObjects.create 7 42).1.create 7 43).1.head = none := by decide

/-- Claim C4: `Timer::cancel` is claimed idempotent in every reachable state,
with the `Active` arm removing the action and moving to `None`.  On a timer in
state `Active` whose action is the sole heap element, the first `cancel`
removes the action but leaves the state `Active` (`is_active()` still true);
the second `cancel` therefore runs `remove` again on the stale node, where
`self.data.len() - 1` underflows on the now-empty vector — modelled as `none`
— so two cancels do not equal one. -/
theorem c4_cancel_not_idempotent :
    (timerArmed.cancel.map fun s => (s.heap.data, s.inner.state, s.is_active))
      = some ([], TimerState.Active, true) ∧
    timerArmed.cancel.bind TimerSys.cancel = none := by decide

/-- Claim C5: the message queue is FIFO and drained wholesale: pushing `m1`
then `m2` and draining yields the whole chain with `m1` before `m2` (in
general, the previously queued messages followed by the new ones in push
order), the chain executes in chain order, and after `drain` the queue's list
is empty. -/
theorem c5_fifo_drain (q : MsgQueue μ) (m1 m2 : μ) (ms : List μ) :
    ((q.push m1).push m2).drain
      = (some (q.list ++ [m1, m2]), { list := [], state := q.state }) ∧
    runChain (q.list ++ [m1, m2]) = q.list ++ [m1, m2] ∧
    (pushAll q ms).list = q.list ++ ms ∧
    ((pushAll q ms).drain.2).list = [] := by
  refine ⟨?_, runChain_id _, by rw [pushAll_eq], rfl⟩
  simp [MsgQueue.push, MsgQueue.drain, isEmpty_append_cons]

/-- Claim C6: for an armed schedule with an installed callback, `process` at
instant `now` advances `last` to `now` and `target` by one `period` relative
to the previous target, hands the callback `dt = now - last`, and returns the
new target as the re-arm deadline — unless the callback cancelled the
schedule, in which case it returns `None` and the state falls back to
`None`.  The callback's aggregate re-entrant effect is `eff`. -/
theorem c6_process_with_callback (i : SchedInner) (now : Nat)
    (eff : SchedInner → SchedInner) (hact : i.act = true) :
    (schedCbInput now i).last = now ∧
    (schedCbInput now i).target = i.target + i.period ∧
    ((schedAfterCb now eff i).state = SchedState.Processing →
      SchedInner.process now eff i
        = some ({ schedAfterCb now eff i with state := SchedState.Active },
                some (schedAfterCb now eff i).target, some (now - i.last))) ∧
    ((schedAfterCb now eff i).state = SchedState.Cancelled →
      SchedInner.process now eff i
        = some ({ schedAfterCb now eff i with state := SchedState.None },
                none, some (now - i.last))) := by
  refine ⟨rfl, rfl, ?_, ?_⟩ <;> intro hst <;>
    simp [SchedInner.process, hact, hst]

/-- Witness for C6 at a concrete armed schedule whose callback does not touch
the schedule (`eff = id`): period 10, previous firing at 100, target 110,
fired at 112 — the callback receives `dt = 12` and the schedule re-arms at
120. -/
theorem c6_witness :
    SchedInner.process 112 id
        { state := .Active, period := 10, last := 100, target := 110, act := true }
      = some ({ state := .Active, period := 10, last := 112, target := 120, act := true },
              some 120, some 12) := by
  have h := (c6_process_with_callback
      { state := .Active, period := 10, last := 100, target := 110, act := true }
      112 id rfl).2.2.1 (by decide)
  simpa using h

/-- Claim C7: posting to a stopped loop never errors and never executes the
message: with the state `Stopping`, `Core::post` still appends the message to
the FIFO (reporting nothing — the function is total), and the engine's Drop
path drains the queue empty while executing none of the messages. -/
theorem c7_post_to_stopping (q : MsgQueue μ) (m : μ)
    (h : q.state = MQState.Stopping) :
    Core.post q m = { list := q.list ++ [m], state := MQState.Stopping } ∧
    RunLoop.dropTeardown (Core.post q m)
      = ({ list := [], state := MQState.Stopping }, []) := by
  have hpost : Core.post q m = { list := q.list ++ [m], state := MQState.Stopping } := by
    simp [Core.post, MsgQueue.push, h]
  exact ⟨hpost, by rw [hpost]; rfl⟩

/-- Witness for C7: posting `1` to a stopping queue holding `[0]`. -/
theorem c7_witness :
    Core.post ({ list := [0], state := MQState.Stopping } : MsgQueue Nat) 1
      = { list := [0, 1], state := MQState.Stopping } ∧
    RunLoop.dropTeardown
        (Core.post ({ list := [0], state := MQState.Stopping } : MsgQueue Nat) 1)
      = ({ list := [], state := MQState.Stopping }, []) :=
  c7_post_to_stopping { list := [0], state := MQState.Stopping } 1 rfl

/-- Claim C8, corrected: when the `weak` count has reached `isize::MAX`,
`ObjectHandle::downgrade` does not abort — its loop takes the `continue` arm,
reloading and retrying forever without touching the count; below the bound the
compare-exchange installs `n + 1`, which never exceeds `isize::MAX`, so the
count cannot wrap either. -/
theorem c8_downgrade_spins_no_abort (n fuel : Nat) :
    downgradeStep n ≠ DowngradeStep.abort ∧
    (n = maxRefcount → downgradeLoop fuel n = none) ∧
    (n ≠ maxRefcount → downgradeStep n = DowngradeStep.success (n + 1)) ∧
    (n < maxRefcount → n + 1 ≤ maxRefcount) := by
  refine ⟨?_, ?_, ?_, ?_⟩
  · unfold downgradeStep; split <;> simp
  · intro h
    subst h
    induction fuel with
    | zero => rfl
    | succ k ih => simpa [downgradeLoop, downgradeStep] using ih
  · intro h; simp [downgradeStep, h]
  · omega

/-- Counterexample for C8 as stated: at `weak = isize::MAX` the loop body of
`downgrade` yields a retry, not the abort the claim requires, and after 64
iterations the loop is still spinning. -/
theorem c8_counterexample :
    downgradeStep maxRefcount = DowngradeStep.retry ∧
    downgradeStep maxRefcount ≠ DowngradeStep.abort ∧
    downgradeLoop 64 maxRefcount = none := by decide

/-- Witness for C8: three iterations at the saturated count are still
spinning, and at count 5 one iteration installs 6. -/
theorem c8_witness :
    downgradeLoop 3 maxRefcount = none ∧
    downgradeStep 5 = DowngradeStep.success 6 :=
  ⟨(c8_downgrade_spins_no_abort maxRefcount 3).2.1 rfl,
   (c8_downgrade_spins_no_abort 5 0).2.2.1 (by decide)⟩

/-- Claim C9: a schedule that fires with no installed callback still advances
`last` to `now` and `target` by one period, returns the new target (so the
engine re-arms it one period later), and leaves the state unchanged. -/
theorem c9_process_without_callback (i : SchedInner) (now : Nat)
    (eff : SchedInner → SchedInner) (hact : i.act = false) :
    SchedInner.process now eff i
      = some ({ i with last := now, target := i.target + i.period },
              some (i.target + i.period), none) ∧
    ({ i with last := now, target := i.target + i.period } : SchedInner).state
      = i.state := by
  refine ⟨?_, rfl⟩
  simp [SchedInner.process, hact]

/-- Witness for C9: a callback-less schedule with period 10 fired at 112
advances to `last = 112`, `target = 120`, re-arms at 120, and stays in state
`Active`. -/
theorem c9_witness :
    SchedInner.process 112 id
        { state := .Active, period := 10, last := 100, target := 110, act := false }
      = some ({ state := .Active, period := 10, last := 112, target := 120, act := false },
              some 120, none) := by
  have h := (c9_process_without_callback
      { state := .Active, period := 10, last := 100, target := 110, act := false }
      112 id rfl).1
  simpa using h

/-- A weak-only control block keeps `strong = 0` and its node pointer under
every sequence of weak-handle operations. -/
theorem runWeakOps_strong_zero (ops : List WeakOp) (h0 h : ObjH)
    (hs : h0.strong = 0) (hrun : runWeakOps h0 ops = some h) :
    h.strong = 0 ∧ h.ptr = h0.ptr := by
  induction ops generalizing h0 with
  | nil =>
    simp only [runWeakOps, Option.some.injEq] at hrun
    subst hrun
    exact ⟨hs, rfl⟩
  | cons op rest ih =>
    cases op with
    | clone =>
      by_cases hw : maxRefcount < h0.weak
      · simp [runWeakOps, applyWeakOp, hw] at hrun
      · simp only [runWeakOps, applyWeakOp, if_neg hw] at hrun
        exact ih { ptr := h0.ptr, strong := h0.strong, weak := h0.weak + 1 } hs hrun
    | drop =>
      by_cases hw : h0.weak = 1
      · simp [runWeakOps, applyWeakOp, hw] at hrun
      · simp only [runWeakOps, applyWeakOp, if_neg hw] at hrun
        exact ih { ptr := h0.ptr, strong := h0.strong, weak := h0.weak - 1 } hs hrun
    | tryUpgrade =>
      simp only [runWeakOps, applyWeakOp, ObjH.upgrade, hs, if_pos] at hrun
      exact ih _ hs hrun

/-- Claim C10: `ObjectWeak::new` builds a control block with a null node
pointer, `strong = 0` and `weak = 1`; and for every sequence of weak-handle
operations from it (so no strong handle is ever created), the surviving block
still has `strong = 0` and a null pointer, and `upgrade` returns `None`. -/
theorem c10_weak_new_never_upgrades (ops : List WeakOp) (h : ObjH)
    (hrun : runWeakOps ObjectWeak.newObjH ops = some h) :
    ObjectWeak.newObjH = { ptr := none, strong := 0, weak := 1 } ∧
    h.strong = 0 ∧ h.ptr = none ∧ ObjH.upgrade h = UpgradeResult.noObject := by
  obtain ⟨hs, hp⟩ := runWeakOps_strong_zero ops ObjectWeak.newObjH h rfl hrun
  exact ⟨rfl, hs, hp, by simp [ObjH.upgrade, hs]⟩

/-- Witness for C10: cloning the weak handle and then attempting an upgrade
leaves a block with `weak = 2` on which `upgrade` returns `None`. -/
theorem c10_witness :
    ObjH.upgrade { ptr := none, strong := 0, weak := 2 } = UpgradeResult.noObject :=
  (c10_weak_new_never_upgrades [WeakOp.clone, WeakOp.tryUpgrade]
      { ptr := none, strong := 0, weak := 2 } (by decide)).2.2.2
